import Mathlib

/-!
Shallow embedding of the ws-relay token/session relay engine
(`relay.go`): the expiring binding table (ttlcache), token issuance,
session binding, disposal, the streaming-send loop, the expiry-veto
callback, and the Prometheus side-effect counters.  Go machine state is
made explicit: the cache is an association list of token to entry, a
session is a handle with an identity and a closed flag, the body reader
is the finite list of results its successive `Read` calls return, and
writes to the bound channel are collected into a trace.
-/

namespace WSRelay

/-- A melody session handle: an identity (pointer identity in Go) and
whether `IsClosed()` reports the transport closed. -/
structure Session where
  id : Nat
  isClosed : Bool
deriving DecidableEq

/-- `wsRelayConn`: the record stored per token; `session` is nil until a
consumer connects (`newWSRelayConn(nil)`). -/
structure wsRelayConn where
  session : Option Session
deriving DecidableEq

/-- ttlcache stores `interface{}` values; a value that is not a
`*wsRelayConn` is modelled by `other` (the target of the failed type
assertions). -/
inductive CacheValue
  | conn (c : wsRelayConn)
  | other
deriving DecidableEq

/-- One ttlcache entry: the stored value and its expiry deadline. -/
structure CacheEntry where
  value : CacheValue
  deadline : Nat
deriving DecidableEq

/-- The binding table: token to entry.  Keys are unique in every
reachable state because `Set` replaces in place. -/
abbrev Cache := List (String × CacheEntry)

/-- Plain lookup (first matching key). -/
def cacheLookup : Cache → String → Option CacheEntry
  | [], _ => none
  | p :: rest, tok => if p.1 = tok then some p.2 else cacheLookup rest tok

/-- `cache.Set`: insert or replace, resetting the TTL deadline. -/
def cacheSet : Cache → String → CacheValue → Nat → Nat → Cache
  | [], tok, v, now, ttl => [(tok, ⟨v, now + ttl⟩)]
  | p :: rest, tok, v, now, ttl =>
    if p.1 = tok then (tok, ⟨v, now + ttl⟩) :: rest
    else p :: cacheSet rest tok v now ttl

/-- The TTL extension `cache.Get` performs on the entry it returns. -/
def cacheTouch : Cache → String → Nat → Nat → Cache
  | [], _, _, _ => []
  | p :: rest, tok, now, ttl =>
    (if p.1 = tok then (p.1, ⟨p.2.value, now + ttl⟩) else p) ::
      cacheTouch rest tok now ttl

/-- `cache.Get`: returns the value if present and extends its TTL. -/
def cacheGet (c : Cache) (tok : String) (now ttl : Nat) :
    Option CacheValue × Cache :=
  match cacheLookup c tok with
  | none => (none, c)
  | some e => (some e.value, cacheTouch c tok now ttl)

/-- `cache.Remove`: unconditional delete, no-op when absent. -/
def cacheRemove : Cache → String → Cache
  | [], _ => []
  | p :: rest, tok =>
    if p.1 = tok then cacheRemove rest tok else p :: cacheRemove rest tok

/-- The Prometheus side effects the engine drives: the issued and
disposed counters, the message-size histogram (its list of
observations), and the per-token byte and message counter vectors. -/
structure Metrics where
  tokenCounter : Nat
  tokenRemovedCounter : Nat
  histogram : List Nat
  tokenBytes : String → Nat
  tokenMessages : String → Nat

/-- The expiry-veto callback installed by `SetCheckExpirationCallback`:
keep (`true`) only when the value converts to a connection whose session
is non-nil and not closed; every `false` branch also increments the
disposed counter, which `sweep` counts. -/
def checkExpirationCallback : CacheValue → Bool
  | .other => false
  | .conn conn =>
    match conn.session with
    | none => false
    | some s => !s.isClosed

/-- The periodic ttlcache eviction sweep: each entry past its deadline
is evicted unless the callback vetoes, in which case its deadline is
extended; returns the surviving table and how many times the callback's
evicting branches fired (each increments the disposed counter). -/
def sweep : Cache → Nat → Nat → Cache × Nat
  | [], _, _ => ([], 0)
  | p :: rest, now, ttl =>
    let r := sweep rest now ttl
    if p.2.deadline ≤ now then
      if checkExpirationCallback p.2.value then
        ((p.1, ⟨p.2.value, now + ttl⟩) :: r.1, r.2)
      else (r.1, r.2 + 1)
    else (p :: r.1, r.2)

/-- An entry the sweep evicts: past deadline and not vetoed. -/
def evictedBySweep (now : Nat) (p : String × CacheEntry) : Bool :=
  decide (p.2.deadline ≤ now) && !checkExpirationCallback p.2.value

/-- A non-EOF read error carries an opaque code;
`eof` is `io.EOF`. -/
inductive RErr
  | eof
  | other (e : Nat)
deriving DecidableEq

/-- One `body.Read(buf)` result: the bytes placed in the buffer and the
error returned alongside (Go allows n > 0 together with an error).  A
reader whose events are exhausted behaves like every drained Go body:
it returns `(0, io.EOF)`. -/
structure ReadEvent where
  data : List Nat
  rerr : Option RErr
deriving DecidableEq

/-- The result of `SendData`, per the spec's error taxonomy; the source
returns all of these as plain `error` values. -/
inductive SendResult
  | ok
  | tokenNotFound
  | noBoundChannel
  | writeError
  | readError (e : Nat)
deriving DecidableEq

/-- Result of `RegisterSession`. -/
inductive RegisterResult
  | ok
  | tokenNotFound
  | convFailed
deriving DecidableEq

/-- The chunks written to the channel during one send: each successful
`session.Write(buf[:n])` appends `(session id, bytes)`. -/
abbrev Trace := List (Nat × List Nat)

/-- The metric updates made for one written chunk of `n` bytes:
histogram observation, per-token bytes `+n`, per-token messages `+1`. -/
def countChunk (m : Metrics) (token : String) (n : Nat) : Metrics :=
  { m with
    histogram := m.histogram ++ [n]
    tokenBytes := fun t => if t = token then m.tokenBytes t + n else m.tokenBytes t
    tokenMessages := fun t => if t = token then m.tokenMessages t + 1 else m.tokenMessages t }

/-- The streaming loop of `SendData` (`relay.go` lines 148-175): read a
chunk; when non-empty, write it to the session (failing terminally when
the session is closed) and record the metrics.  The write's result is
assigned to the same `err` variable that held the read error (line
154), so an error or EOF that accompanies bytes is overwritten by the
successful write's nil result and the loop simply continues with the
next read; only a read returning no bytes can end the loop — with
success on `io.EOF`, or with that error otherwise. -/
def sendLoop (s : Session) (token : String) (m : Metrics) (tr : Trace) :
    List ReadEvent → Metrics × Trace × SendResult
  | [] => (m, tr, .ok)
  | ev :: rest =>
    if ev.data.isEmpty then
      match ev.rerr with
      | none => sendLoop s token m tr rest
      | some .eof => (m, tr, .ok)
      | some (.other e) => (m, tr, .readError e)
    else
      if s.isClosed then (m, tr, .writeError)
      else
        sendLoop s token (countChunk m token ev.data.length)
          (tr ++ [(s.id, ev.data)]) rest

/-- `RegisterToken`: `cache.Set(token, newWSRelayConn(nil))` and
increment the issued counter.  Total: it never fails. -/
def RegisterToken (c : Cache) (m : Metrics) (tok : String) (now ttl : Nat) :
    Cache × Metrics :=
  (cacheSet c tok (.conn ⟨none⟩) now ttl,
   { m with tokenCounter := m.tokenCounter + 1 })

/-- In-place update of a stored record's value (`conn.session = session`
mutates through the cached pointer, leaving the deadline alone). -/
def cacheSetValue : Cache → String → CacheValue → Cache
  | [], _, _ => []
  | p :: rest, tok, v =>
    (if p.1 = tok then (p.1, ⟨v, p.2.deadline⟩) else p) ::
      cacheSetValue rest tok v

/-- `RegisterSession`: `cache.Get` (which touches the TTL), then the
not-found and conversion-failure branches, then the in-place overwrite
of the record's session field. -/
def RegisterSession (c : Cache) (tok : String) (s : Session) (now ttl : Nat) :
    Cache × RegisterResult :=
  match cacheGet c tok now ttl with
  | (none, c') => (c', .tokenNotFound)
  | (some v, c') =>
    match v with
    | .other => (c', .convFailed)
    | .conn _ => (cacheSetValue c' tok (.conn ⟨some s⟩), .ok)

/-- `SendData`: look up under the read lock (`cache.Get` touches the
TTL), fail on missing token or nil session, then run the streaming
loop against the bound session. -/
def SendData (c : Cache) (now ttl : Nat) (tok : String)
    (body : List ReadEvent) (m : Metrics) :
    Cache × Metrics × Trace × SendResult :=
  match cacheGet c tok now ttl with
  | (none, c') => (c', m, [], .tokenNotFound)
  | (some v, c') =>
    match v with
    | .other => (c', m, [], .noBoundChannel)
    | .conn conn =>
      match conn.session with
      | none => (c', m, [], .noBoundChannel)
      | some s =>
        let r := sendLoop s tok m [] body
        (c', r.1, r.2.1, r.2.2)

/-- `DisposeToken`: `cache.Remove(token)` and increment the disposed
counter — unconditionally, whether or not the token was present. -/
def DisposeToken (c : Cache) (m : Metrics) (tok : String) : Cache × Metrics :=
  (cacheRemove c tok,
   { m with tokenRemovedCounter := m.tokenRemovedCounter + 1 })

/-- The bytes a reader yields to the loop before the loop stops: a
read carrying bytes always continues the loop (its accompanying error,
if any, is overwritten by the write), and a read returning no bytes
with an error — EOF or not — ends it. -/
def readBytes : List ReadEvent → List Nat
  | [] => []
  | ev :: rest =>
    if ev.data.isEmpty then
      match ev.rerr with
      | none => readBytes rest
      | some _ => []
    else ev.data ++ readBytes rest

/-- Every value in the table converts to a `*wsRelayConn`. -/
def goodCache (c : Cache) : Prop :=
  ∀ p ∈ c, ∃ conn, p.2.value = CacheValue.conn conn

/-- Tables reachable from the empty cache by the engine's operations
(the only writers of the table). -/
inductive Reachable : Cache → Prop
  | empty : Reachable []
  | regToken (c : Cache) (m : Metrics) (tok : String) (now ttl : Nat) :
      Reachable c → Reachable (RegisterToken c m tok now ttl).1
  | regSession (c : Cache) (tok : String) (s : Session) (now ttl : Nat) :
      Reachable c → Reachable (RegisterSession c tok s now ttl).1
  | dispose (c : Cache) (m : Metrics) (tok : String) :
      Reachable c → Reachable (DisposeToken c m tok).1
  | send (c : Cache) (now ttl : Nat) (tok : String)
      (body : List ReadEvent) (m : Metrics) :
      Reachable c → Reachable (SendData c now ttl tok body m).1
  | sweepStep (c : Cache) (now ttl : Nat) :
      Reachable c → Reachable (sweep c now ttl).1

/-! ### Concrete fixtures used to exercise the theorems -/

/-- An open session handle. -/
def sessA : Session := ⟨1, false⟩

/-- A second open session handle, for rebinding. -/
def sessB : Session := ⟨2, false⟩

/-- Zeroed metrics. -/
def mZero : Metrics := ⟨0, 0, [], fun _ => 0, fun _ => 0⟩

/-- A table holding one token bound to `sessA`. -/
def cacheA : Cache := [("t", ⟨.conn ⟨some sessA⟩, 100⟩)]

/-- A table holding one issued, unbound token. -/
def cacheU : Cache := [("t2", ⟨.conn ⟨none⟩, 50⟩)]

/-- A table with two expired entries: one bound to an open session and
one never bound. -/
def cacheC2 : Cache :=
  [("ta", ⟨.conn ⟨some sessA⟩, 10⟩), ("tb", ⟨.conn ⟨none⟩, 10⟩)]

/-- The bytes of `"hello"`. -/
def hello : List Nat := [104, 101, 108, 108, 111]

/-- A body delivered in two reads, then EOF together with the last
chunk. -/
def bodyW : List ReadEvent := [⟨[1, 2], none⟩, ⟨[3], some .eof⟩]

/-! ### Lemmas about the table operations -/

theorem cacheLookup_set_self (c : Cache) (tok : String) (v : CacheValue)
    (now ttl : Nat) :
    cacheLookup (cacheSet c tok v now ttl) tok = some ⟨v, now + ttl⟩ := by
  induction c with
  | nil => simp [cacheSet, cacheLookup]
  | cons p rest ih =>
    by_cases h : p.1 = tok
    · simp [cacheSet, h, cacheLookup]
    · simp [cacheSet, h, cacheLookup, ih]

theorem cacheLookup_remove_self (c : Cache) (tok : String) :
    cacheLookup (cacheRemove c tok) tok = none := by
  induction c with
  | nil => simp [cacheRemove, cacheLookup]
  | cons p rest ih =>
    by_cases h : p.1 = tok
    · simp [cacheRemove, h, ih]
    · simp [cacheRemove, h, cacheLookup, ih]

theorem cacheRemove_idem (c : Cache) (tok : String) :
    cacheRemove (cacheRemove c tok) tok = cacheRemove c tok := by
  induction c with
  | nil => simp [cacheRemove]
  | cons p rest ih =>
    by_cases h : p.1 = tok
    · simp [cacheRemove, h, ih]
    · simp [cacheRemove, h, ih]

theorem cacheTouch_keys (c : Cache) (tok : String) (now ttl : Nat) :
    (cacheTouch c tok now ttl).map Prod.fst = c.map Prod.fst := by
  induction c with
  | nil => simp [cacheTouch]
  | cons p rest ih =>
    by_cases h : p.1 = tok
    · simp [cacheTouch, h, ih]
    · simp [cacheTouch, h, ih]

theorem cacheLookup_touch (c : Cache) (tok t : String) (now ttl : Nat) :
    (cacheLookup (cacheTouch c tok now ttl) t).map CacheEntry.value =
      (cacheLookup c t).map CacheEntry.value := by
  induction c with
  | nil => simp [cacheTouch, cacheLookup]
  | cons p rest ih =>
    by_cases h : p.1 = tok
    · subst h
      by_cases ht : p.1 = t
      · subst ht
        simp [cacheTouch, cacheLookup]
      · simp [cacheTouch, cacheLookup, ht, ih]
    · by_cases ht : p.1 = t
      · subst ht
        simp [cacheTouch, cacheLookup, h]
      · simp [cacheTouch, cacheLookup, h, ht, ih]

theorem cacheLookup_touch_self (c : Cache) (tok : String) (now ttl : Nat)
    (e : CacheEntry) (h : cacheLookup c tok = some e) :
    cacheLookup (cacheTouch c tok now ttl) tok = some ⟨e.value, now + ttl⟩ := by
  induction c with
  | nil => simp [cacheLookup] at h
  | cons p rest ih =>
    by_cases hp : p.1 = tok
    · simp only [cacheLookup, if_pos hp] at h
      cases h
      simp [cacheTouch, cacheLookup, hp]
    · simp only [cacheLookup, if_neg hp] at h
      simp [cacheTouch, cacheLookup, hp, ih h]

theorem cacheLookup_setValue_self (c : Cache) (tok : String) (v : CacheValue)
    (e : CacheEntry) (h : cacheLookup c tok = some e) :
    cacheLookup (cacheSetValue c tok v) tok = some ⟨v, e.deadline⟩ := by
  induction c with
  | nil => simp [cacheLookup] at h
  | cons p rest ih =>
    by_cases hp : p.1 = tok
    · simp only [cacheLookup, if_pos hp] at h
      cases h
      simp [cacheSetValue, cacheLookup, hp]
    · simp only [cacheLookup, if_neg hp] at h
      simp [cacheSetValue, cacheLookup, hp, ih h]

/-! ### Lemmas about the streaming loop -/

theorem sendLoop_flatten (s : Session) (tok : String) :
    ∀ (body : List ReadEvent) (m : Metrics) (tr : Trace),
      (sendLoop s tok m tr body).2.2 = SendResult.ok →
      ((sendLoop s tok m tr body).2.1.map Prod.snd).flatten =
        (tr.map Prod.snd).flatten ++ readBytes body := by
  intro body
  induction body with
  | nil =>
    intro m tr _
    simp [sendLoop, readBytes]
  | cons ev rest ih =>
    obtain ⟨data, rerr⟩ := ev
    intro m tr hok
    cases data with
    | nil =>
      cases rerr with
      | none =>
        simp only [sendLoop, List.isEmpty_nil, if_true] at hok ⊢
        simpa [readBytes] using ih m tr hok
      | some re =>
        cases re with
        | eof => simp [sendLoop, readBytes]
        | other e => simp [sendLoop] at hok
    | cons b bs =>
      by_cases hc : s.isClosed
      · simp [sendLoop, hc] at hok
      · simp only [sendLoop, List.isEmpty_cons, Bool.false_eq_true,
          if_false, hc] at hok ⊢
        rw [ih _ _ hok]
        simp [readBytes]

theorem sendLoop_ids (s : Session) (tok : String) :
    ∀ (body : List ReadEvent) (m : Metrics) (tr : Trace),
      (∀ p ∈ tr, p.1 = s.id) →
      ∀ p ∈ (sendLoop s tok m tr body).2.1, p.1 = s.id := by
  intro body
  induction body with
  | nil =>
    intro m tr htr
    simpa [sendLoop] using htr
  | cons ev rest ih =>
    obtain ⟨data, rerr⟩ := ev
    intro m tr htr
    have htr' : ∀ p ∈ tr ++ [(s.id, data)], p.1 = s.id := by
      intro p hp
      rcases List.mem_append.mp hp with h | h
      · exact htr p h
      · simp at h
        simp [h]
    cases data with
    | nil =>
      cases rerr with
      | none => simpa [sendLoop] using ih m tr htr
      | some re =>
        cases re with
        | eof => simpa [sendLoop] using htr
        | other e => simpa [sendLoop] using htr
    | cons b bs =>
      by_cases hc : s.isClosed
      · simpa [sendLoop, hc] using htr
      · simpa [sendLoop, hc] using ih _ _ htr'

theorem sendLoop_chunk_le (s : Session) (tok : String) (N : Nat) :
    ∀ (body : List ReadEvent) (m : Metrics) (tr : Trace),
      (∀ ev ∈ body, ev.data.length ≤ N) →
      (∀ p ∈ tr, p.2.length ≤ N) →
      ∀ p ∈ (sendLoop s tok m tr body).2.1, p.2.length ≤ N := by
  intro body
  induction body with
  | nil =>
    intro m tr _ htr
    simpa [sendLoop] using htr
  | cons ev rest ih =>
    obtain ⟨data, rerr⟩ := ev
    intro m tr hbody htr
    have hd : data.length ≤ N := by
      simpa using hbody ⟨data, rerr⟩ (List.mem_cons_self _ _)
    have hrest : ∀ ev ∈ rest, ev.data.length ≤ N := fun ev h =>
      hbody ev (List.mem_cons_of_mem _ h)
    have htr' : ∀ p ∈ tr ++ [(s.id, data)], p.2.length ≤ N := by
      intro p hp
      rcases List.mem_append.mp hp with h | h
      · exact htr p h
      · simp at h
        simpa [h] using hd
    cases data with
    | nil =>
      cases rerr with
      | none => simpa [sendLoop] using ih m tr hrest htr
      | some re =>
        cases re with
        | eof => simpa [sendLoop] using htr
        | other e => simpa [sendLoop] using htr
    | cons b bs =>
      by_cases hc : s.isClosed
      · simpa [sendLoop, hc] using htr
      · simpa [sendLoop, hc] using ih _ _ hrest htr'

/-! ### The table-value invariant behind the type assertions -/

theorem cacheLookup_mem (c : Cache) (tok : String) (e : CacheEntry)
    (h : cacheLookup c tok = some e) : (tok, e) ∈ c := by
  induction c with
  | nil => simp [cacheLookup] at h
  | cons p rest ih =>
    by_cases hp : p.1 = tok
    · simp only [cacheLookup, if_pos hp] at h
      cases h
      subst hp
      exact List.mem_cons_self _ _
    · simp only [cacheLookup, if_neg hp] at h
      exact List.mem_cons_of_mem _ (ih h)

theorem goodCache_set (c : Cache) (tok : String) (conn : wsRelayConn)
    (now ttl : Nat) (h : goodCache c) :
    goodCache (cacheSet c tok (.conn conn) now ttl) := by
  induction c with
  | nil =>
    intro p hp
    simp [cacheSet] at hp
    subst hp
    exact ⟨conn, rfl⟩
  | cons q rest ih =>
    by_cases hq : q.1 = tok
    · intro p hp
      simp only [cacheSet, if_pos hq] at hp
      rcases List.mem_cons.mp hp with h1 | h1
      · subst h1; exact ⟨conn, rfl⟩
      · exact h p (List.mem_cons_of_mem _ h1)
    · intro p hp
      simp only [cacheSet, if_neg hq] at hp
      rcases List.mem_cons.mp hp with h1 | h1
      · subst h1; exact h p (List.mem_cons_self _ _)
      · exact ih (fun r hr => h r (List.mem_cons_of_mem _ hr)) p h1

theorem goodCache_touch (c : Cache) (tok : String) (now ttl : Nat)
    (h : goodCache c) : goodCache (cacheTouch c tok now ttl) := by
  induction c with
  | nil => intro p hp; simp [cacheTouch] at hp
  | cons q rest ih =>
    intro p hp
    simp only [cacheTouch] at hp
    rcases List.mem_cons.mp hp with h1 | h1
    · by_cases hq : q.1 = tok
      · rw [if_pos hq] at h1
        subst h1
        exact h q (List.mem_cons_self _ _)
      · rw [if_neg hq] at h1
        subst h1
        exact h p (List.mem_cons_self _ _)
    · exact ih (fun r hr => h r (List.mem_cons_of_mem _ hr)) p h1

theorem goodCache_setValue (c : Cache) (tok : String) (conn : wsRelayConn)
    (h : goodCache c) : goodCache (cacheSetValue c tok (.conn conn)) := by
  induction c with
  | nil => intro p hp; simp [cacheSetValue] at hp
  | cons q rest ih =>
    intro p hp
    simp only [cacheSetValue] at hp
    rcases List.mem_cons.mp hp with h1 | h1
    · by_cases hq : q.1 = tok
      · rw [if_pos hq] at h1
        subst h1
        exact ⟨conn, rfl⟩
      · rw [if_neg hq] at h1
        subst h1
        exact h p (List.mem_cons_self _ _)
    · exact ih (fun r hr => h r (List.mem_cons_of_mem _ hr)) p h1

theorem goodCache_remove (c : Cache) (tok : String) (h : goodCache c) :
    goodCache (cacheRemove c tok) := by
  induction c with
  | nil => intro p hp; simp [cacheRemove] at hp
  | cons q rest ih =>
    by_cases hq : q.1 = tok
    · intro p hp
      simp only [cacheRemove, if_pos hq] at hp
      exact ih (fun r hr => h r (List.mem_cons_of_mem _ hr)) p hp
    · intro p hp
      simp only [cacheRemove, if_neg hq] at hp
      rcases List.mem_cons.mp hp with h1 | h1
      · subst h1; exact h p (List.mem_cons_self _ _)
      · exact ih (fun r hr => h r (List.mem_cons_of_mem _ hr)) p h1

theorem goodCache_sweep (c : Cache) (now ttl : Nat) (h : goodCache c) :
    goodCache (sweep c now ttl).1 := by
  induction c with
  | nil => intro p hp; simp [sweep] at hp
  | cons q rest ih =>
    have hrest : goodCache (sweep rest now ttl).1 :=
      ih (fun r hr => h r (List.mem_cons_of_mem _ hr))
    intro p hp
    simp only [sweep] at hp
    by_cases h1 : q.2.deadline ≤ now
    · rw [if_pos h1] at hp
      by_cases h2 : checkExpirationCallback q.2.value
      · rw [if_pos h2] at hp
        rcases List.mem_cons.mp hp with h3 | h3
        · subst h3
          exact h q (List.mem_cons_self _ _)
        · exact hrest p h3
      · rw [if_neg h2] at hp
        exact hrest p hp
    · rw [if_neg h1] at hp
      rcases List.mem_cons.mp hp with h3 | h3
      · subst h3; exact h p (List.mem_cons_self _ _)
      · exact hrest p h3

theorem goodCache_registerSession (c : Cache) (tok : String) (s : Session)
    (now ttl : Nat) (h : goodCache c) :
    goodCache (RegisterSession c tok s now ttl).1 := by
  unfold RegisterSession cacheGet
  cases hl : cacheLookup c tok with
  | none => simpa using h
  | some e =>
    obtain ⟨v, dl⟩ := e
    cases v with
    | other => exact goodCache_touch c tok now ttl h
    | conn conn =>
      exact goodCache_setValue (cacheTouch c tok now ttl) tok ⟨some s⟩
        (goodCache_touch c tok now ttl h)

theorem goodCache_sendData (c : Cache) (now ttl : Nat) (tok : String)
    (body : List ReadEvent) (m : Metrics) (h : goodCache c) :
    goodCache (SendData c now ttl tok body m).1 := by
  unfold SendData cacheGet
  cases hl : cacheLookup c tok with
  | none => simpa using h
  | some e =>
    obtain ⟨v, dl⟩ := e
    cases v with
    | other => exact goodCache_touch c tok now ttl h
    | conn conn =>
      obtain ⟨os⟩ := conn
      cases os with
      | none => exact goodCache_touch c tok now ttl h
      | some s => exact goodCache_touch c tok now ttl h

theorem reachable_goodCache (c : Cache) (h : Reachable c) : goodCache c := by
  induction h with
  | empty => intro p hp; simp at hp
  | regToken c m tok now ttl _ ih => exact goodCache_set c tok ⟨none⟩ now ttl ih
  | regSession c tok s now ttl _ ih => exact goodCache_registerSession c tok s now ttl ih
  | dispose c m tok _ ih => exact goodCache_remove c tok ih
  | send c now ttl tok body m _ ih => exact goodCache_sendData c now ttl tok body m ih
  | sweepStep c now ttl _ ih => exact goodCache_sweep c now ttl ih

theorem sendLoop_ne_noBound (s : Session) (tok : String) :
    ∀ (body : List ReadEvent) (m : Metrics) (tr : Trace),
      (sendLoop s tok m tr body).2.2 ≠ SendResult.noBoundChannel := by
  intro body
  induction body with
  | nil => intro m tr; simp [sendLoop]
  | cons ev rest ih =>
    obtain ⟨data, rerr⟩ := ev
    intro m tr
    cases data with
    | nil =>
      cases rerr with
      | none => simpa [sendLoop] using ih m tr
      | some re => cases re <;> simp [sendLoop]
    | cons b bs =>
      by_cases hc : s.isClosed
      · simp [sendLoop, hc]
      · simpa [sendLoop, hc] using ih _ _

/-! ### Case-analysis equations for the engine operations -/

theorem SendData_cases (c : Cache) (now ttl : Nat) (tok : String)
    (body : List ReadEvent) (m : Metrics) :
    (cacheLookup c tok = none ∧
      SendData c now ttl tok body m = (c, m, [], .tokenNotFound)) ∨
    (∃ e, cacheLookup c tok = some e ∧ e.value = .other ∧
      SendData c now ttl tok body m =
        (cacheTouch c tok now ttl, m, [], .noBoundChannel)) ∨
    (∃ e, cacheLookup c tok = some e ∧ e.value = .conn ⟨none⟩ ∧
      SendData c now ttl tok body m =
        (cacheTouch c tok now ttl, m, [], .noBoundChannel)) ∨
    (∃ e s, cacheLookup c tok = some e ∧ e.value = .conn ⟨some s⟩ ∧
      SendData c now ttl tok body m =
        (cacheTouch c tok now ttl, (sendLoop s tok m [] body).1,
          (sendLoop s tok m [] body).2.1, (sendLoop s tok m [] body).2.2)) := by
  unfold SendData cacheGet
  cases hl : cacheLookup c tok with
  | none => exact Or.inl ⟨rfl, rfl⟩
  | some e =>
    obtain ⟨v, dl⟩ := e
    cases v with
    | other => exact Or.inr (Or.inl ⟨⟨.other, dl⟩, rfl, rfl, rfl⟩)
    | conn conn =>
      obtain ⟨os⟩ := conn
      cases os with
      | none => exact Or.inr (Or.inr (Or.inl ⟨⟨.conn ⟨none⟩, dl⟩, rfl, rfl, rfl⟩))
      | some s =>
        exact Or.inr (Or.inr (Or.inr ⟨⟨.conn ⟨some s⟩, dl⟩, s, rfl, rfl, rfl⟩))

theorem RegisterSession_cases (c : Cache) (tok : String) (s : Session)
    (now ttl : Nat) :
    (cacheLookup c tok = none ∧
      RegisterSession c tok s now ttl = (c, .tokenNotFound)) ∨
    (∃ e, cacheLookup c tok = some e ∧ e.value = .other ∧
      RegisterSession c tok s now ttl =
        (cacheTouch c tok now ttl, .convFailed)) ∨
    (∃ e conn, cacheLookup c tok = some e ∧ e.value = .conn conn ∧
      RegisterSession c tok s now ttl =
        (cacheSetValue (cacheTouch c tok now ttl) tok (.conn ⟨some s⟩), .ok)) := by
  unfold RegisterSession cacheGet
  cases hl : cacheLookup c tok with
  | none => exact Or.inl ⟨rfl, rfl⟩
  | some e =>
    obtain ⟨v, dl⟩ := e
    cases v with
    | other => exact Or.inr (Or.inl ⟨⟨.other, dl⟩, rfl, rfl, rfl⟩)
    | conn conn =>
      exact Or.inr (Or.inr ⟨⟨.conn conn, dl⟩, conn, rfl, rfl, rfl⟩)

/-! ### Sweep lemmas -/

theorem sweep_count (c : Cache) (now ttl : Nat) :
    (sweep c now ttl).2 = (c.filter (evictedBySweep now)).length := by
  induction c with
  | nil => simp [sweep]
  | cons q rest ih =>
    by_cases h1 : q.2.deadline ≤ now
    · by_cases h2 : checkExpirationCallback q.2.value
      · simp [sweep, h1, h2, evictedBySweep, List.filter, ih]
      · simp [sweep, h1, h2, evictedBySweep, List.filter, ih]
    · simp [sweep, h1, evictedBySweep, List.filter, ih]

theorem sweep_keep (c : Cache) (now ttl : Nat) (tok : String) (e : CacheEntry)
    (hmem : (tok, e) ∈ c) (hexp : e.deadline ≤ now)
    (hkeep : checkExpirationCallback e.value = true) :
    (tok, (⟨e.value, now + ttl⟩ : CacheEntry)) ∈ (sweep c now ttl).1 := by
  induction c with
  | nil => simp at hmem
  | cons q rest ih =>
    rcases List.mem_cons.mp hmem with h | h
    · rw [← h]
      simp only [sweep, hexp, if_true, hkeep, if_pos]
      exact List.mem_cons_self _ _
    · simp only [sweep]
      by_cases h1 : q.2.deadline ≤ now
      · by_cases h2 : checkExpirationCallback q.2.value
        · simp only [if_pos h1, if_pos h2]
          exact List.mem_cons_of_mem _ (ih h)
        · simp only [if_pos h1, if_neg h2]
          exact ih h
      · simp only [if_neg h1]
        exact List.mem_cons_of_mem _ (ih h)

theorem sweep_key_mem (c : Cache) (now ttl : Nat) (p : String × CacheEntry)
    (hp : p ∈ (sweep c now ttl).1) : p.1 ∈ c.map Prod.fst := by
  induction c with
  | nil => simp [sweep] at hp
  | cons q rest ih =>
    simp only [sweep] at hp
    by_cases h1 : q.2.deadline ≤ now
    · by_cases h2 : checkExpirationCallback q.2.value
      · rw [if_pos h1, if_pos h2] at hp
        rcases List.mem_cons.mp hp with h | h
        · subst h; simp
        · simp [ih h]
      · rw [if_pos h1, if_neg h2] at hp
        simp [ih hp]
    · rw [if_neg h1] at hp
      rcases List.mem_cons.mp hp with h | h
      · subst h; simp
      · simp [ih h]

theorem sweep_evict (c : Cache) (now ttl : Nat) (tok : String) (e : CacheEntry)
    (hnd : (c.map Prod.fst).Nodup) (hmem : (tok, e) ∈ c)
    (hexp : e.deadline ≤ now)
    (hev : checkExpirationCallback e.value = false) :
    ∀ e2 : CacheEntry, (tok, e2) ∉ (sweep c now ttl).1 := by
  induction c with
  | nil => simp at hmem
  | cons q rest ih =>
    have hnd2 : (rest.map Prod.fst).Nodup := (List.nodup_cons.mp hnd).2
    have hq : q.1 ∉ rest.map Prod.fst := (List.nodup_cons.mp hnd).1
    rcases List.mem_cons.mp hmem with h | h
    · have hqtok : q.1 = tok := by rw [← h]
      intro e2 hmem2
      simp only [sweep] at hmem2
      rw [← h] at hmem2
      simp only [hexp, if_true, hev, Bool.false_eq_true, if_false] at hmem2
      have := sweep_key_mem rest now ttl (tok, e2) hmem2
      rw [← hqtok] at this
      exact hq this
    · have htok : tok ∈ rest.map Prod.fst := by
        exact List.mem_map.mpr ⟨(tok, e), h, rfl⟩
      have hqtok : q.1 ≠ tok := fun hh => hq (hh ▸ htok)
      intro e2 hmem2
      simp only [sweep] at hmem2
      by_cases h1 : q.2.deadline ≤ now
      · by_cases h2 : checkExpirationCallback q.2.value
        · rw [if_pos h1, if_pos h2] at hmem2
          rcases List.mem_cons.mp hmem2 with hh | hh
          · exact hqtok (by injection hh with h3 h4; rw [h3])
          · exact ih hnd2 h e2 hh
        · rw [if_pos h1, if_neg h2] at hmem2
          exact ih hnd2 h e2 hmem2
      · rw [if_neg h1] at hmem2
        rcases List.mem_cons.mp hmem2 with hh | hh
        · apply hqtok
          have : q = (tok, e2) := hh.symm
          rw [this]
        · exact ih hnd2 h e2 hh

theorem SendData_of_not_found (c : Cache) (now ttl : Nat) (tok : String)
    (body : List ReadEvent) (m : Metrics) (h : cacheLookup c tok = none) :
    SendData c now ttl tok body m = (c, m, [], .tokenNotFound) := by
  unfold SendData cacheGet
  rw [h]

theorem SendData_of_unbound (c : Cache) (now ttl : Nat) (tok : String)
    (body : List ReadEvent) (m : Metrics) (e : CacheEntry)
    (h : cacheLookup c tok = some e) (hv : e.value = .conn ⟨none⟩) :
    SendData c now ttl tok body m =
      (cacheTouch c tok now ttl, m, [], .noBoundChannel) := by
  obtain ⟨v, dl⟩ := e
  have hv2 : v = CacheValue.conn ⟨none⟩ := hv
  subst hv2
  unfold SendData cacheGet
  rw [h]

theorem SendData_of_bound (c : Cache) (now ttl : Nat) (tok : String)
    (body : List ReadEvent) (m : Metrics) (e : CacheEntry) (s : Session)
    (h : cacheLookup c tok = some e) (hv : e.value = .conn ⟨some s⟩) :
    SendData c now ttl tok body m =
      (cacheTouch c tok now ttl, (sendLoop s tok m [] body).1,
        (sendLoop s tok m [] body).2.1, (sendLoop s tok m [] body).2.2) := by
  obtain ⟨v, dl⟩ := e
  have hv2 : v = CacheValue.conn ⟨some s⟩ := hv
  subst hv2
  unfold SendData cacheGet
  rw [h]

theorem RegisterSession_of_not_found (c : Cache) (tok : String) (s : Session)
    (now ttl : Nat) (h : cacheLookup c tok = none) :
    RegisterSession c tok s now ttl = (c, .tokenNotFound) := by
  unfold RegisterSession cacheGet
  rw [h]

theorem RegisterSession_of_found (c : Cache) (tok : String) (s : Session)
    (now ttl : Nat) (e : CacheEntry) (conn : wsRelayConn)
    (h : cacheLookup c tok = some e) (hv : e.value = .conn conn) :
    RegisterSession c tok s now ttl =
      (cacheSetValue (cacheTouch c tok now ttl) tok (.conn ⟨some s⟩), .ok) := by
  obtain ⟨v, dl⟩ := e
  have hv2 : v = CacheValue.conn conn := hv
  subst hv2
  unfold RegisterSession cacheGet
  rw [h]

/-! ### Claim theorems -/

/-- C1: for every token with a bound channel and every input byte
sequence, however the body reader splits it across `Read` calls (each
call returning at most the 4096-byte buffer's worth), a `SendData` call
that returns success writes to the bound channel exactly the
concatenation of the bytes read, in order — no bytes dropped,
duplicated, or reordered — in chunks of at most 4096 bytes, one
transport frame per chunk rather than a whole-body buffer. -/
theorem C1_send_exact_concatenation (c : Cache) (now ttl : Nat) (tok : String)
    (body : List ReadEvent) (m : Metrics)
    (hchunk : ∀ ev ∈ body, ev.data.length ≤ 4096)
    (hok : (SendData c now ttl tok body m).2.2.2 = SendResult.ok) :
    (((SendData c now ttl tok body m).2.2.1).map Prod.snd).flatten =
        readBytes body ∧
      ∀ p ∈ (SendData c now ttl tok body m).2.2.1, p.2.length ≤ 4096 := by
  rcases SendData_cases c now ttl tok body m with ⟨h1, heq⟩ | ⟨e, h1, h2, heq⟩ |
    ⟨e, h1, h2, heq⟩ | ⟨e, s, h1, h2, heq⟩
  · rw [heq] at hok
    simp at hok
  · rw [heq] at hok
    simp at hok
  · rw [heq] at hok
    simp at hok
  · rw [heq] at hok ⊢
    constructor
    · simpa using sendLoop_flatten s tok body m [] hok
    · exact sendLoop_chunk_le s tok 4096 body m [] hchunk (by simp)

/-- C1 witness: a body split as `[1,2]` then `[3]`-with-EOF through a
bound open session is delivered as exactly `[1,2,3]`. -/
theorem C1_send_exact_concatenation_witness :
    (((SendData cacheA 0 10 "t" bodyW mZero).2.2.1).map Prod.snd).flatten =
      readBytes bodyW :=
  (C1_send_exact_concatenation cacheA 0 10 "t" bodyW mZero (by decide)
    (by decide)).1

/-- C3: a `SendData` on a token absent from the table returns
TokenNotFound and leaves the table, the metrics, and the channel trace
untouched; a `SendData` on a present token whose record has a nil
session returns NoBoundChannel, also without touching the metrics. -/
theorem C3_send_error_paths (c : Cache) (now ttl : Nat) (tok : String)
    (body : List ReadEvent) (m : Metrics) :
    (cacheLookup c tok = none →
      SendData c now ttl tok body m = (c, m, [], SendResult.tokenNotFound)) ∧
    (∀ e, cacheLookup c tok = some e → e.value = CacheValue.conn ⟨none⟩ →
      (SendData c now ttl tok body m).2.2.2 = SendResult.noBoundChannel ∧
        (SendData c now ttl tok body m).2.1 = m ∧
        (SendData c now ttl tok body m).2.2.1 = []) := by
  constructor
  · intro hnone
    exact SendData_of_not_found c now ttl tok body m hnone
  · intro e he hv
    rw [SendData_of_unbound c now ttl tok body m e he hv]
    exact ⟨rfl, rfl, rfl⟩

/-- C3 witness: sending to the unknown token returns TokenNotFound with
nothing changed, and sending to an issued-but-unbound token returns
NoBoundChannel. -/
theorem C3_send_error_paths_witness :
    SendData cacheU 0 9 "unknown-token" [⟨[120], some .eof⟩] mZero =
        (cacheU, mZero, [], SendResult.tokenNotFound) ∧
      (SendData cacheU 0 9 "t2" [⟨[120], some .eof⟩] mZero).2.2.2 =
        SendResult.noBoundChannel :=
  ⟨(C3_send_error_paths cacheU 0 9 "unknown-token" [⟨[120], some .eof⟩]
      mZero).1 (by decide),
   ((C3_send_error_paths cacheU 0 9 "t2" [⟨[120], some .eof⟩] mZero).2
      ⟨CacheValue.conn ⟨none⟩, 50⟩ (by decide) rfl).1⟩

/-- C6: token issuance is total (the Lean function returns in every
case — it never fails), inserts an unbound record, bumps the
issued-tokens counter by exactly one, and an immediate `SendData` on
the fresh token — before any connect — fails with NoBoundChannel. -/
theorem C6_issue_token (c : Cache) (m : Metrics) (tok : String)
    (now ttl : Nat) :
    cacheLookup (RegisterToken c m tok now ttl).1 tok =
        some ⟨CacheValue.conn ⟨none⟩, now + ttl⟩ ∧
      (RegisterToken c m tok now ttl).2.tokenCounter = m.tokenCounter + 1 ∧
      ∀ now2 ttl2 body m2,
        (SendData (RegisterToken c m tok now ttl).1 now2 ttl2 tok body
            m2).2.2.2 = SendResult.noBoundChannel := by
  refine ⟨cacheLookup_set_self c tok _ now ttl, rfl, ?_⟩
  intro now2 ttl2 body m2
  rw [SendData_of_unbound ((RegisterToken c m tok now ttl).1) now2 ttl2 tok
    body m2 ⟨CacheValue.conn ⟨none⟩, now + ttl⟩
    (cacheLookup_set_self c tok _ now ttl) rfl]

/-- C10: `SendData` never mutates the binding table: whatever it
returns, the set of tokens and every record's stored value (in
particular its bound-channel field) are exactly as before the call;
only the looked-up entry's TTL deadline is refreshed by the read. -/
theorem C10_send_preserves_table (c : Cache) (now ttl : Nat) (tok : String)
    (body : List ReadEvent) (m : Metrics) :
    (SendData c now ttl tok body m).1.map Prod.fst = c.map Prod.fst ∧
      ∀ t, (cacheLookup (SendData c now ttl tok body m).1 t).map
          CacheEntry.value = (cacheLookup c t).map CacheEntry.value := by
  rcases SendData_cases c now ttl tok body m with ⟨h1, heq⟩ | ⟨e, h1, h2, heq⟩ |
    ⟨e, h1, h2, heq⟩ | ⟨e, s, h1, h2, heq⟩ <;> rw [heq]
  · exact ⟨rfl, fun t => rfl⟩
  · exact ⟨cacheTouch_keys c tok now ttl, fun t => cacheLookup_touch c tok t now ttl⟩
  · exact ⟨cacheTouch_keys c tok now ttl, fun t => cacheLookup_touch c tok t now ttl⟩
  · exact ⟨cacheTouch_keys c tok now ttl, fun t => cacheLookup_touch c tok t now ttl⟩

/-- C4 counterexample: the removed-tokens metric does not fire exactly
once per token removed — `DisposeToken` increments it unconditionally.
Disposing a never-issued token removes nothing from the (empty) table
yet fires the side effect, and disposing the same token twice removes
one token yet fires it twice. -/
theorem C4_dispose_counterexample :
    (DisposeToken [] mZero "t").1 = [] ∧
      (DisposeToken [] mZero "t").2.tokenRemovedCounter = 1 ∧
      (DisposeToken (DisposeToken cacheA mZero "t").1
          (DisposeToken cacheA mZero "t").2 "t").1 = [] ∧
      (DisposeToken (DisposeToken cacheA mZero "t").1
          (DisposeToken cacheA mZero "t").2 "t").2.tokenRemovedCounter = 2 :=
  ⟨rfl, rfl, rfl, rfl⟩

/-- C4 (amended): after `DisposeToken` the token is absent, so every
subsequent `SendData` and `BindChannel` for it fails with
TokenNotFound; disposal is idempotent on the table (a second dispose,
or a dispose of a never-issued token, leaves the table as a first
dispose does); and the removed-tokens counter increments by one on
every `DisposeToken` call — including calls that remove nothing — not
exactly once per token actually removed. -/
theorem C4_dispose_token (c : Cache) (m m2 m3 : Metrics) (tok : String) :
    cacheLookup (DisposeToken c m tok).1 tok = none ∧
      (DisposeToken c m tok).2.tokenRemovedCounter =
        m.tokenRemovedCounter + 1 ∧
      (∀ now ttl body m4,
        (SendData (DisposeToken c m tok).1 now ttl tok body m4).2.2.2 =
          SendResult.tokenNotFound) ∧
      (∀ s now ttl,
        (RegisterSession (DisposeToken c m tok).1 tok s now ttl).2 =
          RegisterResult.tokenNotFound) ∧
      (DisposeToken (DisposeToken c m tok).1 m2 tok).1 =
        (DisposeToken c m3 tok).1 := by
  refine ⟨cacheLookup_remove_self c tok, rfl, ?_, ?_, cacheRemove_idem c tok⟩
  · intro now ttl body m4
    rw [SendData_of_not_found ((DisposeToken c m tok).1) now ttl tok body m4
      (cacheLookup_remove_self c tok)]
  · intro s now ttl
    rw [RegisterSession_of_not_found ((DisposeToken c m tok).1) tok s now ttl
      (cacheLookup_remove_self c tok)]

/-- C7: binding succeeds for every token present in the table (whose
record is a connection, as all reachable records are), overwrites any
previously bound channel rather than rejecting the rebind, and every
chunk a subsequent `SendData` writes goes to the most recently bound
session. -/
theorem C7_bind_overwrites (c : Cache) (tok : String) (e : CacheEntry)
    (conn0 : wsRelayConn) (sB : Session) (now ttl : Nat)
    (h : cacheLookup c tok = some e) (hv : e.value = CacheValue.conn conn0) :
    (RegisterSession c tok sB now ttl).2 = RegisterResult.ok ∧
      cacheLookup (RegisterSession c tok sB now ttl).1 tok =
        some ⟨CacheValue.conn ⟨some sB⟩, now + ttl⟩ ∧
      ∀ now2 ttl2 body m,
        ∀ p ∈ (SendData (RegisterSession c tok sB now ttl).1 now2 ttl2 tok
            body m).2.2.1, p.1 = sB.id := by
  rw [RegisterSession_of_found c tok sB now ttl e conn0 h hv]
  have hl2 : cacheLookup
      (cacheSetValue (cacheTouch c tok now ttl) tok (.conn ⟨some sB⟩)) tok =
      some ⟨CacheValue.conn ⟨some sB⟩, now + ttl⟩ :=
    cacheLookup_setValue_self (cacheTouch c tok now ttl) tok _
      ⟨e.value, now + ttl⟩ (cacheLookup_touch_self c tok now ttl e h)
  refine ⟨rfl, hl2, ?_⟩
  intro now2 ttl2 body m
  rw [SendData_of_bound
    (cacheSetValue (cacheTouch c tok now ttl) tok (.conn ⟨some sB⟩))
    now2 ttl2 tok body m ⟨CacheValue.conn ⟨some sB⟩, now + ttl⟩ sB hl2 rfl]
  exact sendLoop_ids sB tok body m [] (by simp)

/-- C7 witness: rebinding the already-bound token `"t"` from `sessA` to
`sessB` succeeds and overwrites, and a send afterwards writes its
chunks to `sessB`. -/
theorem C7_bind_overwrites_witness :
    (RegisterSession cacheA "t" sessB 0 10).2 = RegisterResult.ok ∧
      cacheLookup (RegisterSession cacheA "t" sessB 0 10).1 "t" =
        some ⟨CacheValue.conn ⟨some sessB⟩, 10⟩ :=
  have h := C7_bind_overwrites cacheA "t" ⟨CacheValue.conn ⟨some sessA⟩, 100⟩
    ⟨some sessA⟩ sessB 0 10 (by decide) rfl
  ⟨h.1, h.2.1⟩

/-- C9 counterexample: through the bound open session of `cacheA`, a
single read returning the bytes `[5]` together with a non-EOF read
error does not make `SendData` return that read error, as the claim
states: the chunk is written and counted, but the error is overwritten
by the successful write's nil result (`relay.go` line 154), the loop
continues, the drained reader then yields `(0, io.EOF)`, and the send
returns success. -/
theorem C9_read_error_counterexample :
    (SendData cacheA 0 10 "t" [⟨[5], some (.other 3)⟩] mZero).2.2.1 =
        [(sessA.id, [5])] ∧
      (SendData cacheA 0 10 "t" [⟨[5], some (.other 3)⟩]
          mZero).2.1.histogram = [1] ∧
      (SendData cacheA 0 10 "t" [⟨[5], some (.other 3)⟩] mZero).2.2.2 =
        SendResult.ok ∧
      (SendData cacheA 0 10 "t" [⟨[5], some (.other 3)⟩] mZero).2.2.2 ≠
        SendResult.readError 3 :=
  ⟨rfl, rfl, rfl, by decide⟩

/-- C9 (amended): when a body read returns bytes together with an
error — non-EOF or EOF alike — the chunk is written to the channel and
counted in the metrics, but the accompanying error is then discarded,
because the write's result overwrites it, and the loop continues with
the next read; `SendData`'s result is decided by the subsequent reads,
so a drained reader makes such a send return success.  Only a read
error arriving with no bytes is returned as the result of `SendData`. -/
theorem C9_read_error_discarded (s : Session) (tok : String) (m : Metrics)
    (tr : Trace) (data : List Nat) (ec : Nat) (rest : List ReadEvent)
    (hopen : s.isClosed = false) (hne : data ≠ []) :
    (sendLoop s tok m tr (⟨data, some (.other ec)⟩ :: rest) =
        sendLoop s tok (countChunk m tok data.length)
          (tr ++ [(s.id, data)]) rest) ∧
      (sendLoop s tok m tr (⟨data, some .eof⟩ :: rest) =
        sendLoop s tok (countChunk m tok data.length)
          (tr ++ [(s.id, data)]) rest) ∧
      (sendLoop s tok m tr [⟨data, some (.other ec)⟩] =
        (countChunk m tok data.length, tr ++ [(s.id, data)],
          SendResult.ok)) ∧
      (sendLoop s tok m tr (⟨[], some (.other ec)⟩ :: rest) =
        (m, tr, SendResult.readError ec)) ∧
      ∀ c now ttl e, cacheLookup c tok = some e →
        e.value = CacheValue.conn ⟨some s⟩ →
        (SendData c now ttl tok [⟨data, some (.other ec)⟩] m).2.2.2 =
          SendResult.ok := by
  have hf : data.isEmpty = false := by
    cases data
    · exact absurd rfl hne
    · rfl
  refine ⟨by simp [sendLoop, hf, hopen], by simp [sendLoop, hf, hopen],
    by simp [sendLoop, hf, hopen], by simp [sendLoop], ?_⟩
  intro c now ttl e he hv
  rw [SendData_of_bound c now ttl tok _ m e s he hv]
  simp [sendLoop, hf, hopen]

/-- C9 witness: the discarded-error behavior at the concrete bound
open session — the send that reads `[5]` alongside a non-EOF error
returns success. -/
theorem C9_read_error_discarded_witness :
    (SendData cacheA 0 10 "t" [⟨[5], some (.other 3)⟩] mZero).2.2.2 =
      SendResult.ok :=
  (C9_read_error_discarded sessA "t" mZero [] [5] 3 [] rfl
    (by decide)).2.2.2.2 cacheA 0 10 ⟨CacheValue.conn ⟨some sessA⟩, 100⟩
    (by decide) rfl

/-- C2: the liveness predicate keeps a record exactly when it holds a
non-absent open session; the sweep never evicts an expired entry the
predicate keeps (its deadline is extended instead), evicts an expired
entry the predicate rejects, and fires the eviction side effect once
per evicted entry. -/
theorem C2_expiry_sweep (v : CacheValue) (c : Cache) (now ttl : Nat)
    (tok : String) (e : CacheEntry) :
    (checkExpirationCallback v = true ↔
      ∃ conn s, v = CacheValue.conn conn ∧ conn.session = some s ∧
        s.isClosed = false) ∧
      ((tok, e) ∈ c → e.deadline ≤ now →
        checkExpirationCallback e.value = true →
        (tok, (⟨e.value, now + ttl⟩ : CacheEntry)) ∈ (sweep c now ttl).1) ∧
      ((c.map Prod.fst).Nodup → (tok, e) ∈ c → e.deadline ≤ now →
        checkExpirationCallback e.value = false →
        ∀ e2, (tok, e2) ∉ (sweep c now ttl).1) ∧
      (sweep c now ttl).2 = (c.filter (evictedBySweep now)).length := by
  refine ⟨?_, sweep_keep c now ttl tok e, sweep_evict c now ttl tok e,
    sweep_count c now ttl⟩
  cases v with
  | other =>
    constructor
    · intro h
      cases h
    · rintro ⟨conn, s, h1, _, _⟩
      cases h1
  | conn conn =>
    obtain ⟨os⟩ := conn
    cases os with
    | none =>
      constructor
      · intro h
        cases h
      · rintro ⟨conn2, s2, h1, h2, h3⟩
        injection h1 with h1
        subst h1
        cases h2
    | some s =>
      constructor
      · intro h
        refine ⟨⟨some s⟩, s, rfl, rfl, ?_⟩
        simpa [checkExpirationCallback] using h
      · rintro ⟨conn2, s2, h1, h2, h3⟩
        injection h1 with h1
        subst h1
        injection h2 with h2
        subst h2
        simp [checkExpirationCallback, h3]

/-- C2 witness: with both entries of `cacheC2` past their deadline, the
sweep keeps the bound-open token `"ta"` (deadline extended) and evicts
the unbound token `"tb"`, firing the eviction side effect once. -/
theorem C2_expiry_sweep_witness :
    ("ta", (⟨CacheValue.conn ⟨some sessA⟩, 25⟩ : CacheEntry)) ∈
        (sweep cacheC2 20 5).1 ∧
      (("tb", (⟨CacheValue.conn ⟨none⟩, 10⟩ : CacheEntry)) ∉
        (sweep cacheC2 20 5).1) ∧
      (sweep cacheC2 20 5).2 = (cacheC2.filter (evictedBySweep 20)).length :=
  have h := C2_expiry_sweep (CacheValue.conn ⟨some sessA⟩) cacheC2 20 5 "ta"
    ⟨CacheValue.conn ⟨some sessA⟩, 10⟩
  have h2 := C2_expiry_sweep (CacheValue.conn ⟨none⟩) cacheC2 20 5 "tb"
    ⟨CacheValue.conn ⟨none⟩, 10⟩
  ⟨h.2.1 (by decide) (by decide) (by decide),
   h2.2.2.1 (by decide) (by decide) (by decide) (by decide)
     ⟨CacheValue.conn ⟨none⟩, 10⟩,
   h.2.2.2⟩

/-- C8: in every table reachable through the engine's operations — the
only writers — each stored value is a relay-connection record, so the
type-assertion-failure branches are unreachable: `RegisterSession`
never returns its conversion-failure error, `SendData` returns
NoBoundChannel only for a record whose session is nil, and no entry can
take the expiration callback's conversion-failure eviction branch. -/
theorem C8_cached_values_are_conns (c : Cache) (h : Reachable c) :
    (∀ p ∈ c, ∃ conn, p.2.value = CacheValue.conn conn) ∧
      (∀ tok s now ttl,
        (RegisterSession c tok s now ttl).2 ≠ RegisterResult.convFailed) ∧
      (∀ now ttl tok body m,
        (SendData c now ttl tok body m).2.2.2 = SendResult.noBoundChannel →
        ∃ e, cacheLookup c tok = some e ∧
          e.value = CacheValue.conn ⟨none⟩) ∧
      (∀ p ∈ c, p.2.value ≠ CacheValue.other) := by
  have hg := reachable_goodCache c h
  refine ⟨hg, ?_, ?_, ?_⟩
  · intro tok s now ttl
    rcases RegisterSession_cases c tok s now ttl with ⟨h1, heq⟩ |
      ⟨e, h1, h2, heq⟩ | ⟨e, conn, h1, h2, heq⟩
    · rw [heq]
      simp
    · obtain ⟨conn, hc⟩ := hg (tok, e) (cacheLookup_mem c tok e h1)
      rw [h2] at hc
      cases hc
    · rw [heq]
      simp
  · intro now ttl tok body m hnb
    rcases SendData_cases c now ttl tok body m with ⟨h1, heq⟩ |
      ⟨e, h1, h2, heq⟩ | ⟨e, h1, h2, heq⟩ | ⟨e, s, h1, h2, heq⟩
    · rw [heq] at hnb
      simp at hnb
    · obtain ⟨conn, hc⟩ := hg (tok, e) (cacheLookup_mem c tok e h1)
      rw [h2] at hc
      cases hc
    · exact ⟨e, h1, h2⟩
    · rw [heq] at hnb
      exact absurd hnb (sendLoop_ne_noBound s tok body m [])
  · intro p hp
    obtain ⟨conn, hc⟩ := hg p hp
    rw [hc]
    simp

/-- C8 witness: on the reachable one-token table, binding an unknown
token fails with not-found, never with the conversion failure. -/
theorem C8_cached_values_are_conns_witness :
    (RegisterSession (RegisterToken [] mZero "t" 0 10).1 "x" sessA 0 10).2 ≠
      RegisterResult.convFailed :=
  (C8_cached_values_are_conns (RegisterToken [] mZero "t" 0 10).1
    (Reachable.regToken [] mZero "t" 0 10 Reachable.empty)).2.1 "x" sessA 0 10

/-- C5: every chunk of n > 0 bytes the send loop writes makes the size
histogram observe n, adds n to the token's byte counter, and adds 1 to
its message counter — including the final chunk delivered with EOF;
and in the spec's scenario, issuing `"t1"`, binding an open session,
and sending `"hello"` writes exactly the one chunk `"hello"` to that
session, moves the token's byte counter by 5, its message counter by
1, and records one histogram observation of 5. -/
theorem C5_per_chunk_metrics (s : Session) (tok : String) (m : Metrics)
    (tr : Trace) (data : List Nat) (rest : List ReadEvent)
    (c0 : Cache) (m0 : Metrics) (now ttl : Nat)
    (hopen : s.isClosed = false) (hne : data ≠ []) :
    (sendLoop s tok m tr (⟨data, none⟩ :: rest) =
        sendLoop s tok (countChunk m tok data.length)
          (tr ++ [(s.id, data)]) rest) ∧
      (sendLoop s tok m tr (⟨data, some .eof⟩ :: rest) =
        sendLoop s tok (countChunk m tok data.length)
          (tr ++ [(s.id, data)]) rest) ∧
      (countChunk m tok data.length).histogram =
        m.histogram ++ [data.length] ∧
      (countChunk m tok data.length).tokenBytes tok =
        m.tokenBytes tok + data.length ∧
      (countChunk m tok data.length).tokenMessages tok =
        m.tokenMessages tok + 1 ∧
      (RegisterSession (RegisterToken c0 m0 "t1" now ttl).1 "t1" s now
          ttl).2 = RegisterResult.ok ∧
      (SendData (RegisterSession (RegisterToken c0 m0 "t1" now ttl).1 "t1" s
            now ttl).1 now ttl "t1" [⟨hello, some .eof⟩]
          (RegisterToken c0 m0 "t1" now ttl).2).2.2.1 = [(s.id, hello)] ∧
      (SendData (RegisterSession (RegisterToken c0 m0 "t1" now ttl).1 "t1" s
            now ttl).1 now ttl "t1" [⟨hello, some .eof⟩]
          (RegisterToken c0 m0 "t1" now ttl).2).2.2.2 = SendResult.ok ∧
      (SendData (RegisterSession (RegisterToken c0 m0 "t1" now ttl).1 "t1" s
            now ttl).1 now ttl "t1" [⟨hello, some .eof⟩]
          (RegisterToken c0 m0 "t1" now ttl).2).2.1.tokenBytes "t1" =
        m0.tokenBytes "t1" + 5 ∧
      (SendData (RegisterSession (RegisterToken c0 m0 "t1" now ttl).1 "t1" s
            now ttl).1 now ttl "t1" [⟨hello, some .eof⟩]
          (RegisterToken c0 m0 "t1" now ttl).2).2.1.tokenMessages "t1" =
        m0.tokenMessages "t1" + 1 ∧
      (SendData (RegisterSession (RegisterToken c0 m0 "t1" now ttl).1 "t1" s
            now ttl).1 now ttl "t1" [⟨hello, some .eof⟩]
          (RegisterToken c0 m0 "t1" now ttl).2).2.1.histogram =
        m0.histogram ++ [5] := by
  have hf : data.isEmpty = false := by
    cases data
    · exact absurd rfl hne
    · rfl
  have h1 : cacheLookup (RegisterToken c0 m0 "t1" now ttl).1 "t1" =
      some ⟨CacheValue.conn ⟨none⟩, now + ttl⟩ :=
    cacheLookup_set_self c0 "t1" _ now ttl
  have h2 := RegisterSession_of_found ((RegisterToken c0 m0 "t1" now ttl).1)
    "t1" s now ttl ⟨CacheValue.conn ⟨none⟩, now + ttl⟩ ⟨none⟩ h1 rfl
  have h3 : cacheLookup (RegisterSession (RegisterToken c0 m0 "t1" now ttl).1
      "t1" s now ttl).1 "t1" =
      some ⟨CacheValue.conn ⟨some s⟩, now + ttl⟩ := by
    rw [h2]
    exact cacheLookup_setValue_self _ "t1" _
      ⟨CacheValue.conn ⟨none⟩, now + ttl⟩
      (cacheLookup_touch_self _ "t1" now ttl _ h1)
  have h4 := SendData_of_bound ((RegisterSession (RegisterToken c0 m0 "t1"
      now ttl).1 "t1" s now ttl).1) now ttl "t1" [⟨hello, some .eof⟩]
    ((RegisterToken c0 m0 "t1" now ttl).2)
    ⟨CacheValue.conn ⟨some s⟩, now + ttl⟩ s h3 rfl
  have h5 : sendLoop s "t1" ((RegisterToken c0 m0 "t1" now ttl).2) []
      [⟨hello, some .eof⟩] =
      (countChunk ((RegisterToken c0 m0 "t1" now ttl).2) "t1" 5,
        [(s.id, hello)], SendResult.ok) := by
    simp [sendLoop, hello, hopen]
  refine ⟨by simp [sendLoop, hf, hopen], by simp [sendLoop, hf, hopen], rfl,
    by simp [countChunk], by simp [countChunk], by rw [h2], ?_, ?_, ?_, ?_,
    ?_⟩
  · rw [h4, h5]
  · rw [h4, h5]
  · rw [h4, h5]
    simp [countChunk, RegisterToken]
  · rw [h4, h5]
    simp [countChunk, RegisterToken]
  · rw [h4, h5]
    simp [countChunk, RegisterToken]

/-- C5 witness: the scenario at a concrete open session and empty
table — sending `"hello"` to the freshly issued, freshly bound `"t1"`
writes one chunk to that session and moves the counters by 5 bytes and
one message. -/
theorem C5_per_chunk_metrics_witness :
    (SendData (RegisterSession (RegisterToken [] mZero "t1" 0 10).1 "t1"
          sessA 0 10).1 0 10 "t1" [⟨hello, some .eof⟩]
        (RegisterToken [] mZero "t1" 0 10).2).2.2.1 = [(sessA.id, hello)] ∧
      (SendData (RegisterSession (RegisterToken [] mZero "t1" 0 10).1 "t1"
            sessA 0 10).1 0 10 "t1" [⟨hello, some .eof⟩]
          (RegisterToken [] mZero "t1" 0 10).2).2.1.tokenBytes "t1" =
        mZero.tokenBytes "t1" + 5 ∧
      (SendData (RegisterSession (RegisterToken [] mZero "t1" 0 10).1 "t1"
            sessA 0 10).1 0 10 "t1" [⟨hello, some .eof⟩]
          (RegisterToken [] mZero "t1" 0 10).2).2.1.tokenMessages "t1" =
        mZero.tokenMessages "t1" + 1 :=
  have h := C5_per_chunk_metrics sessA "x" mZero [] [7] [] [] mZero 0 10 rfl
    (by decide)
  ⟨h.2.2.2.2.2.2.1, h.2.2.2.2.2.2.2.2.1, h.2.2.2.2.2.2.2.2.2.1⟩

end WSRelay
